import Mathlib

/-!
Verification of the ossslim OSS client core against its specification.

Bytes are modelled as natural numbers below 256 (`List Nat`), 32-bit words
as naturals reduced modulo 2 ^ 32.  The cryptographic primitives used by the
signing code (SHA-1, HMAC-SHA1, standard base64) are implemented in full so
that the signature function is executable.
-/

namespace Ossslim

/-- Reduce a natural number to a 32-bit word. -/
def w32 (n : Nat) : Nat := n % 4294967296

/-- Rotate a 32-bit word left by `b` bits. -/
def rotl32 (b n : Nat) : Nat :=
  let m := n % 4294967296
  m * 2 ^ b % 4294967296 + m / 2 ^ (32 - b)

/-- Big-endian byte encoding of `n` on `k` bytes. -/
def toBytesBE : Nat → Nat → List Nat
  | 0, _ => []
  | k + 1, n => toBytesBE k (n / 256) ++ [n % 256]

/-- Group a byte stream into big-endian 32-bit words. -/
def bytesToWords : List Nat → List Nat
  | a :: b :: c :: d :: rest =>
      (((a * 256 + b) * 256 + c) * 256 + d) :: bytesToWords rest
  | _ => []

structure Sha1State where
  a : Nat
  b : Nat
  c : Nat
  d : Nat
  e : Nat

def sha1Init : Sha1State :=
  ⟨0x67452301, 0xEFCDAB89, 0x98BADCFE, 0x10325476, 0xC3D2E1F0⟩

/-- The SHA-1 round function, by round index. -/
def sha1F (i b c d : Nat) : Nat :=
  if i < 20 then (b &&& c) ||| ((4294967295 ^^^ b) &&& d)
  else if i < 40 then b ^^^ c ^^^ d
  else if i < 60 then (b &&& c) ||| (b &&& d) ||| (c &&& d)
  else b ^^^ c ^^^ d

/-- The SHA-1 round constant, by round index. -/
def sha1K (i : Nat) : Nat :=
  if i < 20 then 0x5A827999
  else if i < 40 then 0x6ED9EBA1
  else if i < 60 then 0x8F1BBCDC
  else 0xCA62C1D6

/-- Extend the (reversed) message schedule by `k` further words. -/
def sha1ExtendRev (rw : List Nat) : Nat → List Nat
  | 0 => rw
  | k + 1 =>
      sha1ExtendRev
        (rotl32 1 ((rw.getD 2 0) ^^^ (rw.getD 7 0) ^^^ (rw.getD 13 0) ^^^ (rw.getD 15 0)) :: rw)
        k

/-- The 80-word message schedule of one 16-word chunk. -/
def sha1Schedule (ws : List Nat) : List Nat :=
  (sha1ExtendRev ws.reverse 64).reverse

/-- Run the 80 compression rounds over the message schedule. -/
def sha1Rounds : Nat → Sha1State → List Nat → Sha1State
  | _, st, [] => st
  | i, st, wi :: rest =>
      let t := w32 (rotl32 5 st.a + sha1F i st.b st.c st.d + st.e + sha1K i + wi)
      sha1Rounds (i + 1) ⟨t, st.a, rotl32 30 st.b, st.c, st.d⟩ rest

/-- Process one 64-byte chunk. -/
def sha1Chunk (h : Sha1State) (chunk : List Nat) : Sha1State :=
  let st := sha1Rounds 0 h (sha1Schedule (bytesToWords chunk))
  ⟨w32 (h.a + st.a), w32 (h.b + st.b), w32 (h.c + st.c), w32 (h.d + st.d), w32 (h.e + st.e)⟩

/-- Process a padded message 64 bytes at a time. -/
def sha1Fold (h : Sha1State) (bs : List Nat) : Sha1State :=
  if bs = [] then h else sha1Fold (sha1Chunk h (bs.take 64)) (bs.drop 64)
termination_by bs.length
decreasing_by
  simp only [List.length_drop]
  rename_i hne
  have : bs.length ≠ 0 := fun h0 => hne (List.eq_nil_of_length_eq_zero h0)
  omega

/-- SHA-1 padding: a 0x80 byte, zeros to 56 mod 64, then the bit length. -/
def sha1Pad (msg : List Nat) : List Nat :=
  msg ++ [0x80] ++ List.replicate ((119 - msg.length % 64) % 64) 0 ++
    toBytesBE 8 (msg.length * 8)

/-- SHA-1 of a byte sequence, as 20 bytes. -/
def sha1 (msg : List Nat) : List Nat :=
  let st := sha1Fold sha1Init (sha1Pad msg)
  toBytesBE 4 st.a ++ toBytesBE 4 st.b ++ toBytesBE 4 st.c ++ toBytesBE 4 st.d ++
    toBytesBE 4 st.e

/-- HMAC-SHA1 with a 64-byte block size. -/
def hmacSha1 (key msg : List Nat) : List Nat :=
  let k0 := if key.length > 64 then sha1 key else key
  let k1 := k0 ++ List.replicate (64 - k0.length) 0
  let ipad := k1.map (fun b => b ^^^ 0x36)
  let opad := k1.map (fun b => b ^^^ 0x5C)
  sha1 (opad ++ sha1 (ipad ++ msg))

def base64Chars : List Char :=
  "ABCDEFGHIJKLMNOPQRSTUVWXYZabcdefghijklmnopqrstuvwxyz0123456789+/".toList

def b64c (n : Nat) : Char := base64Chars.getD n 'A'

/-- Standard base64 encoding with padding. -/
def base64Encode : List Nat → String
  | [] => ""
  | [a] => String.mk [b64c (a / 4), b64c (a % 4 * 16), '=', '=']
  | [a, b] => String.mk [b64c (a / 4), b64c (a % 4 * 16 + b / 16), b64c (b % 16 * 4), '=']
  | a :: b :: c :: rest =>
      String.mk [b64c (a / 4), b64c (a % 4 * 16 + b / 16), b64c (b % 16 * 4 + c / 64),
        b64c (c % 64)] ++ base64Encode rest

/-- UTF-8 bytes of a string. -/
def strBytes (s : String) : List Nat := s.toUTF8.toList.map (fun b => b.toNat)

/-- strings.TrimPrefix with the one-character pattern used throughout the code:
remove one leading slash when present. -/
def trimLeadingSlash (s : String) : String :=
  if s.startsWith "/" then s.drop 1 else s

/-- strings.Trim with a one-character cutset: remove every leading and trailing
occurrence of `c`. -/
def trimChars (c : Char) (s : List Char) : List Char :=
  ((s.dropWhile (· == c)).reverse.dropWhile (· == c)).reverse

/-- The Latin-1 code points accepted by the whitespace test of strings.TrimSpace. -/
def goIsSpace (c : Char) : Bool :=
  [9, 10, 11, 12, 13, 32, 133, 160].contains c.toNat

/-- strings.TrimSpace: remove leading and trailing whitespace. -/
def trimSpace (s : String) : String :=
  (((s.toList.dropWhile goIsSpace).reverse.dropWhile goIsSpace).reverse).asString

/-- The OSS client configuration (type Client in the source). -/
structure Client where
  AccessKeyId : String
  AccessKeySecret : String
  UrlBase : String
  Bucket : String

/-- The signing-relevant state of one Request (type Request in the source);
`queries` models the url.Values in insertion order. -/
structure Request where
  client : Client
  remote : String := ""
  canonRes : String := ""
  queries : List (String × String) := []
  contentType : String := ""
  method : String := ""
  date : String := ""
  contentMd5 : String := ""

/-- Request.getRemote: force a leading slash on the target path. -/
def getRemote (remote : String) : String :=
  if ¬ remote.startsWith "/" then "/" ++ remote else remote

/-- Request.queryString: empty for no parameters, otherwise a question mark and
ampersand-separated key=value pairs. -/
def queryStringOf (qs : List (String × String)) : String :=
  if qs = [] then ""
  else "?" ++ String.intercalate "&" (qs.map (fun p => p.1 ++ "=" ++ p.2))

/-- Request.canonicalizedResource: the pre-set canonical resource when present,
otherwise the slash-forced remote path plus the rendered query string. -/
def Request.canonicalizedResource (req : Request) : String :=
  if req.canonRes ≠ "" then "/" ++ req.client.Bucket ++ req.canonRes
  else "/" ++ req.client.Bucket ++ getRemote req.remote ++ queryStringOf req.queries

/-- Request.signature: base64 of the HMAC-SHA1, keyed by the account secret, of
the five components joined by newlines. -/
def Request.signature (req : Request) : String :=
  let msg := String.intercalate "\n"
    [req.method, req.contentMd5, req.contentType, req.date, req.canonicalizedResource]
  base64Encode (hmacSha1 (strBytes req.client.AccessKeySecret) (strBytes msg))

/-- The prefix normalization performed by Request.list: trim slashes, append a
slash, and map a lone slash to the empty string. -/
def normalizePfx (p : String) : String :=
  let t := (trimChars '/' p.toList).asString ++ "/"
  if t = "/" then "" else t

/-- The Request state prepared by Request.list for one page request, before
execution. -/
def listRequestState (c : Client) (pfx marker : String) (recursive : Bool) : Request :=
  { client := c
    remote := "/"
    canonRes := "/"
    queries := [("max-keys", "1000"), ("prefix", normalizePfx pfx), ("marker", marker)] ++
      (if ¬ recursive then [("delimiter", "/")] else [])
    method := "GET" }

/-- Modelled from the spec for comparison: the claim says the canonical resource
of a listing request is a fixed slash followed by an ordering of the listing
query parameters. -/
def specListCanonicalResource (bucket : String) (params : List (String × String)) : String :=
  "/" ++ bucket ++ "/" ++ queryStringOf params

/-- Modelled from the spec for comparison: the claim says the normalized prefix
is the slash-trimmed input plus exactly one trailing slash, except that the
empty input maps to the empty string. -/
def claimNormalizePfx (p : String) : String :=
  if p = "" then "" else (trimChars '/' p.toList).asString ++ "/"

/-- The structured error body (type responseError in the source). -/
structure ResponseError where
  Code : String := ""
  Message : String := ""
  RequestId : String := ""
  HostId : String := ""
  OSSAccessKeyId : String := ""

/-- The error message Request.do derives from a non-success body: the Message
field when the body unmarshals and the field is non-empty, else the
whitespace-trimmed raw body. -/
def errorFromBody (xmlUnmarshal : String → Except String ResponseError)
    (body : String) : String :=
  match xmlUnmarshal body with
  | Except.ok errResp =>
      if errResp.Message.length > 0 then errResp.Message else trimSpace body
  | Except.error _ => trimSpace body

/-- A received HTTP response: status code and fully-read body. -/
structure HttpResponse where
  status : Nat
  body : String

/-- The response classification of Request.do: 200 is success, 404 on a HEAD
request is a non-error, anything else produces an error from the body. -/
def classifyResponse (xmlUnmarshal : String → Except String ResponseError)
    (method : String) (resp : HttpResponse) : Option String :=
  if resp.status = 200 then none
  else if resp.status = 404 ∧ method = "HEAD" then none
  else some (errorFromBody xmlUnmarshal resp.body)

/-- Client.ExistsWithContext: run a HEAD request; when a response arrived the
boolean is whether its status is 200, otherwise the transport error is
returned with a false boolean. -/
def existsWithContext (xmlUnmarshal : String → Except String ResponseError)
    (resp : Option HttpResponse) (transportErr : String) : Bool × Option String :=
  match resp with
  | none => (false, some transportErr)
  | some r => (r.status == 200, classifyResponse xmlUnmarshal "HEAD" r)

/-- The chunking performed by Client.DeleteWithContext: a leading group of at
most 1000 keys, then the remainder. -/
def chunks1000 (l : List String) : List (List String) :=
  if l = [] then []
  else
    (if l.length > 1000 then l.take 1000 else l) ::
      chunks1000 (if l.length > 1000 then l.drop 1000 else [])
termination_by l.length
decreasing_by
  rename_i hne
  have : l.length ≠ 0 := fun h0 => hne (List.eq_nil_of_length_eq_zero h0)
  split <;> simp only [List.length_drop, List.length_nil] <;> omega

/-- Client.DeleteWithContext with the HTTP exchange abstracted by `send`:
returns the sequence of per-request key lists actually issued (leading
slashes stripped) and the final error. -/
def deleteRun (send : List String → Option String) (remotes : List String) :
    List (List String) × Option String :=
  if remotes = [] then ([], none)
  else
    let current := if remotes.length > 1000 then remotes.take 1000 else remotes
    let rest := if remotes.length > 1000 then remotes.drop 1000 else []
    let chunk := current.map (fun r => trimLeadingSlash r)
    match send chunk with
    | some e => ([chunk], some e)
    | none =>
        let next := deleteRun send rest
        (chunk :: next.1, next.2)
termination_by remotes.length
decreasing_by
  rename_i hne
  have : remotes.length ≠ 0 := fun h0 => hne (List.eq_nil_of_length_eq_zero h0)
  split <;> simp only [List.length_drop, List.length_nil] <;> omega

/-- The partition loop of Client.DeleteRecursiveWithContext: a listed key
matched by some exception goes to the undeleted side, the rest are deletion
candidates, both in listing order. -/
def partitionFiles (exceptions : List (String → Bool)) :
    List String → List String × List String
  | [] => ([], [])
  | f :: fs =>
      if exceptions.any (fun ex => ex f) then
        ((partitionFiles exceptions fs).1, f :: (partitionFiles exceptions fs).2)
      else
        (f :: (partitionFiles exceptions fs).1, (partitionFiles exceptions fs).2)

/-- Client.DeleteRecursiveWithContext after a successful listing (`files`),
with the HTTP exchange abstracted by `send`: partition, batch delete, and on
failure reclassify every candidate as undeleted. -/
def deleteRecursive (send : List String → Option String)
    (files : List String) (exceptions : List (String → Bool)) :
    List String × List String × Option String :=
  let p := partitionFiles exceptions files
  match (deleteRun send p.1).2 with
  | some e => ([], p.2 ++ p.1, some e)
  | none => (p.1, p.2, none)

/-- One policy condition of Client.PostForm; caller-supplied extra conditions
are opaque values of type alpha. -/
inductive Condition (α : Type) where
  | kv : String → String → Condition α
  | contentLengthRange : Int → Int → Condition α
  | extra : α → Condition α

/-- The policy document Client.PostForm marshals: an expiration instant and the
conditions list. -/
structure PolicyDoc (α : Type) where
  expiration : Int
  conditions : List (Condition α)

/-- Ten minutes in nanoseconds, the default token validity. -/
def tenMinutes : Int := 600000000000

/-- The policy document built by Client.PostForm: bucket and key equality
conditions, an optional content-length-range for a positive maxSize, then the
extra conditions; expiration is now plus the (defaulted) duration. -/
def postFormPolicy {α : Type} (c : Client) (key : String) (maxSize : Int)
    (duration : Int) (extraConditions : List α) (now : Int) : PolicyDoc α :=
  let k := trimLeadingSlash key
  let conditions := [Condition.kv "bucket" c.Bucket, Condition.kv "key" k]
  let conditions :=
    if maxSize > 0 then conditions ++ [Condition.contentLengthRange 0 maxSize]
    else conditions
  let d := if duration ≤ 0 then tenMinutes else duration
  { expiration := now + d
    conditions := conditions ++ extraConditions.map Condition.extra }

/-- Client.PostForm with JSON marshalling abstracted: the returned field list in
source order. -/
def postForm {α : Type} (c : Client) (key : String) (maxSize : Int) (duration : Int)
    (extraConditions : List α) (now : Int)
    (jsonMarshal : PolicyDoc α → List Nat) : List (String × String) :=
  let k := trimLeadingSlash key
  let policy := base64Encode (jsonMarshal (postFormPolicy c key maxSize duration extraConditions now))
  [("key", k),
   ("policy", policy),
   ("OSSAccessKeyId", c.AccessKeyId),
   ("signature", base64Encode (hmacSha1 (strBytes c.AccessKeySecret) (strBytes policy)))]

/-- A concrete client configuration used to instantiate theorems. -/
def exampleClient : Client :=
  { AccessKeyId := "id"
    AccessKeySecret := "secret"
    UrlBase := "https://b.example.com"
    Bucket := "b" }

end Ossslim

namespace Ossslim

theorem trimChars_head?_ne (c : Char) (s : List Char) (a : Char)
    (h : (trimChars c s).head? = some a) : (a == c) = false := by
  unfold trimChars at h
  rw [List.head?_reverse] at h
  obtain ⟨t, ht⟩ := List.dropWhile_suffix (l := (s.dropWhile (· == c)).reverse) (· == c)
  have h2 : ((s.dropWhile (· == c)).reverse).getLast? = some a := by
    rw [← ht, List.getLast?_append, h]
    rfl
  rw [List.getLast?_reverse] at h2
  have h3 := List.head?_dropWhile_not (· == c) s
  rw [h2] at h3
  simpa using h3

theorem trimChars_getLast?_ne (c : Char) (s : List Char) (a : Char)
    (h : (trimChars c s).getLast? = some a) : (a == c) = false := by
  unfold trimChars at h
  rw [List.getLast?_reverse] at h
  have h3 := List.head?_dropWhile_not (· == c) ((s.dropWhile (· == c)).reverse)
  rw [h] at h3
  simpa using h3

theorem slash_data : ("/" : String).data = ['/'] := rfl

theorem asString_append_slash_eq_slash_iff (t : List Char) :
    (t.asString ++ "/" = "/") ↔ t = [] := by
  constructor
  · intro h
    have hd := congrArg String.data h
    rw [String.data_append, slash_data] at hd
    have : t ++ ['/'] = [] ++ ['/'] := by simpa using hd
    exact (List.append_left_inj _).mp this
  · intro h
    rw [h]
    rfl

theorem normalizePfx_eq (p : String) :
    normalizePfx p =
      if trimChars '/' p.toList = [] then ""
      else (trimChars '/' p.toList).asString ++ "/" := by
  unfold normalizePfx
  by_cases h : trimChars '/' p.toList = []
  · rw [if_pos ((asString_append_slash_eq_slash_iff _).mpr h), if_pos h]
  · rw [if_neg (fun hc => h ((asString_append_slash_eq_slash_iff _).mp hc)), if_neg h]

end Ossslim

namespace Ossslim

/-- C6 (amended): Request.list normalizes the prefix by trimming leading and
trailing slashes and appending exactly one trailing slash, except that any
prefix consisting solely of slashes (in particular the empty prefix) maps to
the empty string; hence the normalized prefix is either empty or ends in
exactly one slash and never begins with a slash. -/
theorem C6_normalize_amended (p : String) :
    normalizePfx p =
      (if trimChars '/' p.toList = [] then ""
       else (trimChars '/' p.toList).asString ++ "/") ∧
    (normalizePfx p = "" ∨
      ((normalizePfx p).toList.head? ≠ some '/' ∧
        (normalizePfx p).toList.getLast? = some '/' ∧
        (normalizePfx p).toList.dropLast.getLast? ≠ some '/')) := by
  refine ⟨normalizePfx_eq p, ?_⟩
  by_cases h : trimChars '/' p.toList = []
  · left
    rw [normalizePfx_eq, if_pos h]
  · right
    rw [normalizePfx_eq, if_neg h]
    have hdata : ((trimChars '/' p.toList).asString ++ "/").toList =
        trimChars '/' p.toList ++ ['/'] := rfl
    rw [hdata]
    refine ⟨?_, List.getLast?_concat _, ?_⟩
    · intro hc
      rw [List.head?_append] at hc
      cases ht : (trimChars '/' p.toList).head? with
      | none => exact h (List.head?_eq_none_iff.mp ht)
      | some a =>
        rw [ht] at hc
        simp only [Option.or_some] at hc
        have hne := trimChars_head?_ne '/' p.toList a ht
        rw [Option.some.injEq] at hc
        rw [hc] at hne
        simp at hne
    · rw [List.dropLast_concat]
      intro hc
      have hne := trimChars_getLast?_ne '/' p.toList '/' hc
      simp at hne

/-- C6 witness: the amended normalization statement at the concrete prefix "a". -/
theorem C6_normalize_amended_witness :
    normalizePfx "a" =
      (if trimChars '/' "a".toList = [] then ""
       else (trimChars '/' "a".toList).asString ++ "/") ∧
    (normalizePfx "a" = "" ∨
      ((normalizePfx "a").toList.head? ≠ some '/' ∧
        (normalizePfx "a").toList.getLast? = some '/' ∧
        (normalizePfx "a").toList.dropLast.getLast? ≠ some '/')) :=
  C6_normalize_amended "a"

/-- C6 counterexample: the non-empty all-slash prefix "///" is normalized to
the empty string, while the claimed rule (trim, then append exactly one slash,
with only the empty input excepted) yields "/". -/
theorem C6_normalize_counterexample :
    normalizePfx "///" = "" ∧ claimNormalizePfx "///" = "/" ∧
    ¬ normalizePfx "///" = claimNormalizePfx "///" := by
  refine ⟨by decide, by decide, by decide⟩

/-- C4 (amended): the canonical resource is a slash, the bucket, then the
literal target path for simple operations (no preset resource, no queries),
while for every listing request it is exactly slash, bucket, slash — the
listing query parameters are not part of the canonical resource. -/
theorem C4_canonical_resource_amended :
    (∀ (c : Client) (pfx marker : String) (recursive : Bool),
      (listRequestState c pfx marker recursive).canonicalizedResource =
        "/" ++ c.Bucket ++ "/") ∧
    (∀ req : Request, req.canonRes = "" → req.queries = [] →
      req.canonicalizedResource = "/" ++ req.client.Bucket ++ getRemote req.remote) := by
  constructor
  · intro c pfx marker recursive
    simp [listRequestState, Request.canonicalizedResource]
  · intro req h hq
    rw [Request.canonicalizedResource, if_neg (fun hc => hc h), hq]
    have : queryStringOf [] = "" := rfl
    rw [this]
    exact String.append_empty _

/-- C4 witness: the amended statement at a concrete listing request and a
concrete upload request. -/
theorem C4_canonical_resource_amended_witness :
    (listRequestState exampleClient "p" "" true).canonicalizedResource =
      "/" ++ exampleClient.Bucket ++ "/" ∧
    ({ client := exampleClient, remote := "a", method := "PUT" } : Request).canonicalizedResource =
      "/" ++ exampleClient.Bucket ++ getRemote "a" :=
  ⟨C4_canonical_resource_amended.1 exampleClient "p" "" true,
   C4_canonical_resource_amended.2 _ rfl rfl⟩

/-- C4 counterexample: for a concrete listing request the canonical resource is
"/b/", and no ordering of the listing query parameters of that call renders to
"/b/", so the claim that the parameters follow the fixed slash fails. -/
theorem C4_canonical_resource_counterexample :
    (listRequestState exampleClient "p" "" true).canonicalizedResource = "/b/" ∧
    (([[("max-keys", "1000"), ("prefix", normalizePfx "p"), ("marker", "")],
       [("max-keys", "1000"), ("marker", ""), ("prefix", normalizePfx "p")],
       [("prefix", normalizePfx "p"), ("max-keys", "1000"), ("marker", "")],
       [("prefix", normalizePfx "p"), ("marker", ""), ("max-keys", "1000")],
       [("marker", ""), ("max-keys", "1000"), ("prefix", normalizePfx "p")],
       [("marker", ""), ("prefix", normalizePfx "p"), ("max-keys", "1000")]] :
        List (List (String × String))).all
      (fun params => specListCanonicalResource "b" params != "/b/")) = true := by
  refine ⟨by decide, by decide⟩

/-- C1: the Signer output equals base64 of the HMAC-SHA1, keyed by the account
secret, of the five components joined by newlines in the fixed order (method,
fingerprint, content type, timestamp, canonical resource), and is a
deterministic function of those components. -/
theorem C1_signature_hmac_deterministic :
    (∀ req : Request,
      req.signature = base64Encode (hmacSha1 (strBytes req.client.AccessKeySecret)
        (strBytes (String.intercalate "\n"
          [req.method, req.contentMd5, req.contentType, req.date,
            req.canonicalizedResource])))) ∧
    (∀ r1 r2 : Request, r1.method = r2.method → r1.contentMd5 = r2.contentMd5 →
      r1.contentType = r2.contentType → r1.date = r2.date →
      r1.canonicalizedResource = r2.canonicalizedResource →
      r1.client.AccessKeySecret = r2.client.AccessKeySecret →
      r1.signature = r2.signature) := by
  constructor
  · intro req
    rfl
  · intro r1 r2 h1 h2 h3 h4 h5 h6
    simp only [Request.signature]
    rw [h1, h2, h3, h4, h5, h6]

/-- C1 witness: two invocations on an identical concrete request agree. -/
theorem C1_signature_hmac_deterministic_witness :
    ({ client := exampleClient, method := "PUT" } : Request).signature =
      ({ client := exampleClient, method := "PUT" } : Request).signature :=
  C1_signature_hmac_deterministic.2 _ _ rfl rfl rfl rfl rfl rfl

/-- C5: the existence probe is a HEAD request for which a 404 response yields
false with no error, a 200 response yields true with no error, and any other
status yields an error derived from the response body. -/
theorem C5_exists_probe (xmlUnmarshal : String → Except String ResponseError)
    (body terr : String) :
    existsWithContext xmlUnmarshal (some ⟨404, body⟩) terr = (false, none) ∧
    existsWithContext xmlUnmarshal (some ⟨200, body⟩) terr = (true, none) ∧
    (∀ s : Nat, s ≠ 200 → s ≠ 404 →
      (existsWithContext xmlUnmarshal (some ⟨s, body⟩) terr).2 =
        some (errorFromBody xmlUnmarshal body)) := by
  refine ⟨?_, ?_, ?_⟩
  · simp [existsWithContext, classifyResponse]
  · simp [existsWithContext, classifyResponse]
  · intro s hs hs4
    simp [existsWithContext, classifyResponse, hs, hs4]

/-- C5 witness: a 500 response surfaces the body-derived error. -/
theorem C5_exists_probe_witness :
    (existsWithContext (fun _ => Except.error "nope") (some ⟨500, "oops"⟩) "t").2 =
      some (errorFromBody (fun _ => Except.error "nope") "oops") :=
  (C5_exists_probe (fun _ => Except.error "nope") "oops" "t").2.2 500
    (by decide) (by decide)

/-- C10: when a response arrived the existence probe's boolean is exactly
whether the status is 200, and with no response it is false. -/
theorem C10_exists_boolean (xmlUnmarshal : String → Except String ResponseError)
    (r : HttpResponse) (terr : String) :
    (existsWithContext xmlUnmarshal (some r) terr).1 = (r.status == 200) ∧
    ((existsWithContext xmlUnmarshal (some r) terr).1 = true ↔ r.status = 200) ∧
    (existsWithContext xmlUnmarshal none terr).1 = false := by
  refine ⟨rfl, ?_, rfl⟩
  simp [existsWithContext]

/-- C9: for a non-success status other than a 404 HEAD probe, the surfaced
error is the structured Message when the body unmarshals with a non-empty
Message field, and the whitespace-trimmed raw body otherwise. -/
theorem C9_error_message (xmlUnmarshal : String → Except String ResponseError)
    (method : String) (s : Nat) (body : String)
    (hs : s ≠ 200) (hnf : ¬ (s = 404 ∧ method = "HEAD")) :
    classifyResponse xmlUnmarshal method ⟨s, body⟩ =
      some (match xmlUnmarshal body with
        | Except.ok errResp =>
            if errResp.Message.length > 0 then errResp.Message else trimSpace body
        | Except.error _ => trimSpace body) := by
  simp only [classifyResponse]
  rw [if_neg hs, if_neg hnf]
  rfl

/-- C9 witness: a 403 response whose body carries a structured message
surfaces that message. -/
theorem C9_error_message_witness :
    classifyResponse (fun _ => Except.ok { Message := "Denied" }) "GET" ⟨403, " raw "⟩ =
      some "Denied" := by
  have h := C9_error_message (fun _ => Except.ok { Message := "Denied" }) "GET" 403 " raw "
    (by decide) (by decide)
  simpa using h

end Ossslim

namespace Ossslim

theorem chunks1000_nil : chunks1000 [] = [] := by
  rw [chunks1000]
  rw [if_pos rfl]

theorem chunks1000_cons (l : List String) (h : l ≠ []) :
    chunks1000 l = (if l.length > 1000 then l.take 1000 else l) ::
      chunks1000 (if l.length > 1000 then l.drop 1000 else []) := by
  rw [chunks1000, if_neg h]

theorem deleteRun_nil (send : List String → Option String) :
    deleteRun send [] = ([], none) := by
  rw [deleteRun]
  rw [if_pos rfl]

theorem deleteRun_cons (send : List String → Option String) (l : List String)
    (h : l ≠ []) :
    deleteRun send l =
      (match send ((if l.length > 1000 then l.take 1000 else l).map
          (fun r => trimLeadingSlash r)) with
       | some e =>
          ([(if l.length > 1000 then l.take 1000 else l).map
              (fun r => trimLeadingSlash r)], some e)
       | none =>
          ((if l.length > 1000 then l.take 1000 else l).map
              (fun r => trimLeadingSlash r) ::
            (deleteRun send (if l.length > 1000 then l.drop 1000 else [])).1,
           (deleteRun send (if l.length > 1000 then l.drop 1000 else [])).2)) := by
  rw [deleteRun, if_neg h]

theorem chunks1000_length (l : List String) :
    (chunks1000 l).length = (l.length + 999) / 1000 := by
  induction l using chunks1000.induct with
  | case1 => rw [chunks1000_nil]; rfl
  | case2 x hx ih =>
      rw [chunks1000_cons x hx]
      simp only [dite_eq_ite] at ih
      rw [List.length_cons, ih]
      have hpos : 0 < x.length := List.length_pos.mpr hx
      by_cases h : x.length > 1000
      · rw [if_pos h]
        simp only [List.length_drop]
        omega
      · rw [if_neg h]
        simp only [List.length_nil]
        omega

theorem chunks1000_flatten (l : List String) : (chunks1000 l).flatten = l := by
  induction l using chunks1000.induct with
  | case1 => rw [chunks1000_nil]; rfl
  | case2 x hx ih =>
      rw [chunks1000_cons x hx]
      simp only [dite_eq_ite] at ih
      rw [List.flatten_cons]
      by_cases h : x.length > 1000
      · simp only [if_pos h] at ih ⊢
        rw [ih]
        exact List.take_append_drop 1000 x
      · simp only [if_neg h] at ih ⊢
        rw [chunks1000_nil]
        simp

theorem chunks1000_sizes (l : List String) (c : List String)
    (hc : c ∈ chunks1000 l) : c.length ≤ 1000 := by
  induction l using chunks1000.induct with
  | case1 => rw [chunks1000_nil] at hc; cases hc
  | case2 x hx ih =>
      rw [chunks1000_cons x hx] at hc
      simp only [dite_eq_ite] at ih
      rcases List.mem_cons.mp hc with h | h
      · subst h
        by_cases hlen : x.length > 1000
        · simp only [if_pos hlen, List.length_take]
          omega
        · simp only [if_neg hlen]
          omega
      · exact ih h

theorem deleteRun_success (send : List String → Option String)
    (hok : ∀ c, send c = none) (l : List String) :
    deleteRun send l = ((chunks1000 l).map (List.map trimLeadingSlash), none) := by
  induction l using chunks1000.induct with
  | case1 => rw [deleteRun_nil, chunks1000_nil]; rfl
  | case2 x hx ih =>
      simp only [dite_eq_ite] at ih
      rw [deleteRun_cons send x hx, chunks1000_cons x hx, hok, ih]
      rfl

theorem deleteRun_cons_some (send : List String → Option String) (l : List String)
    (e : String) (h : l ≠ [])
    (hsend : send ((if l.length > 1000 then l.take 1000 else l).map
      (fun r => trimLeadingSlash r)) = some e) :
    deleteRun send l =
      ([(if l.length > 1000 then l.take 1000 else l).map
          (fun r => trimLeadingSlash r)], some e) := by
  rw [deleteRun_cons send l h, hsend]

theorem deleteRun_cons_none (send : List String → Option String) (l : List String)
    (h : l ≠ [])
    (hsend : send ((if l.length > 1000 then l.take 1000 else l).map
      (fun r => trimLeadingSlash r)) = none) :
    deleteRun send l =
      ((if l.length > 1000 then l.take 1000 else l).map
          (fun r => trimLeadingSlash r) ::
        (deleteRun send (if l.length > 1000 then l.drop 1000 else [])).1,
       (deleteRun send (if l.length > 1000 then l.drop 1000 else [])).2) := by
  rw [deleteRun_cons send l h, hsend]

theorem deleteRun_take (send : List String → Option String) (l : List String) :
    ∃ k, (deleteRun send l).1 =
      ((chunks1000 l).map (List.map trimLeadingSlash)).take k := by
  induction l using chunks1000.induct with
  | case1 => exact ⟨0, by rw [deleteRun_nil, chunks1000_nil]; rfl⟩
  | case2 x hx ih =>
      simp only [dite_eq_ite] at ih
      rw [chunks1000_cons x hx]
      cases hsend : send ((if x.length > 1000 then x.take 1000 else x).map
          (fun r => trimLeadingSlash r)) with
      | some e =>
          rw [deleteRun_cons_some send x e hx hsend]
          refine ⟨1, ?_⟩
          simp
      | none =>
          rw [deleteRun_cons_none send x hx hsend]
          obtain ⟨k, hk⟩ := ih
          refine ⟨k + 1, ?_⟩
          simp only [List.map_cons, List.take_succ_cons]
          rw [hk]

theorem deleteRun_failure (send : List String → Option String) (l : List String)
    (e : String) (he : (deleteRun send l).2 = some e) :
    ∃ pre cfail, (deleteRun send l).1 = pre ++ [cfail] ∧
      (∀ c ∈ pre, send c = none) ∧ send cfail = some e := by
  induction l using chunks1000.induct with
  | case1 => rw [deleteRun_nil] at he; cases he
  | case2 x hx ih =>
      simp only [dite_eq_ite] at ih
      cases hsend : send ((if x.length > 1000 then x.take 1000 else x).map
          (fun r => trimLeadingSlash r)) with
      | some e0 =>
          rw [deleteRun_cons_some send x e0 hx hsend] at he ⊢
          cases he
          refine ⟨[], _, rfl, ?_, hsend⟩
          intro c hc
          cases hc
      | none =>
          rw [deleteRun_cons_none send x hx hsend] at he ⊢
          obtain ⟨pre, cfail, h1, h2, h3⟩ := ih he
          refine ⟨(if x.length > 1000 then x.take 1000 else x).map
            (fun r => trimLeadingSlash r) :: pre, cfail, ?_, ?_, h3⟩
          · simp only [List.cons_append, h1]
          · intro c hc
            rcases List.mem_cons.mp hc with h | h
            · subst h; exact hsend
            · exact h2 c h

theorem partitionFiles_sub (exceptions : List (String → Bool)) (fs : List String) :
    (∀ k ∈ (partitionFiles exceptions fs).1, k ∈ fs) ∧
    (∀ k ∈ (partitionFiles exceptions fs).2, k ∈ fs) := by
  induction fs with
  | nil =>
      constructor
      · intro k hk
        cases hk
      · intro k hk
        cases hk
  | cons f fs ih =>
      simp only [partitionFiles]
      by_cases hf : exceptions.any (fun ex => ex f) = true
      · rw [if_pos hf]
        refine ⟨fun k hk => List.mem_cons_of_mem f (ih.1 k hk), fun k hk => ?_⟩
        rcases List.mem_cons.mp hk with h | h
        · exact h ▸ List.mem_cons_self f fs
        · exact List.mem_cons_of_mem f (ih.2 k h)
      · rw [if_neg hf]
        refine ⟨fun k hk => ?_, fun k hk => List.mem_cons_of_mem f (ih.2 k hk)⟩
        rcases List.mem_cons.mp hk with h | h
        · exact h ▸ List.mem_cons_self f fs
        · exact List.mem_cons_of_mem f (ih.1 k h)

theorem partitionFiles_matched (exceptions : List (String → Bool)) (fs : List String)
    (k : String) (hk : k ∈ fs) (hm : exceptions.any (fun ex => ex k) = true) :
    k ∈ (partitionFiles exceptions fs).2 ∧ k ∉ (partitionFiles exceptions fs).1 := by
  induction fs with
  | nil => cases hk
  | cons f fs ih =>
      simp only [partitionFiles]
      by_cases hf : exceptions.any (fun ex => ex f) = true
      · rw [if_pos hf]
        rcases List.mem_cons.mp hk with hkf | hkfs
        · subst hkf
          refine ⟨List.mem_cons_self _ _, ?_⟩
          by_cases hin : k ∈ fs
          · exact (ih hin).2
          · exact fun hd => hin ((partitionFiles_sub exceptions fs).1 k hd)
        · exact ⟨List.mem_cons_of_mem _ (ih hkfs).1, (ih hkfs).2⟩
      · rw [if_neg hf]
        have hkf : k ≠ f := fun he => hf (he ▸ hm)
        have hkfs : k ∈ fs := by
          rcases List.mem_cons.mp hk with h | h
          · exact absurd h hkf
          · exact h
        refine ⟨(ih hkfs).1, fun hd => ?_⟩
        rcases List.mem_cons.mp hd with h | h
        · exact hkf h
        · exact (ih hkfs).2 h

/-- C2: batch delete issues one request per leading chunk of at most 1000 keys;
when every request succeeds, the request trace is exactly the chunk list and
its length is the ceiling of n / 1000, while the empty input issues no request
and returns no error. -/
theorem C2_batch_delete_chunking (send : List String → Option String)
    (remotes : List String) (hok : ∀ c, send c = none) :
    deleteRun send [] = ([], none) ∧
    (deleteRun send remotes).1 = (chunks1000 remotes).map (List.map trimLeadingSlash) ∧
    (deleteRun send remotes).1.length = (remotes.length + 999) / 1000 ∧
    (∀ c ∈ (deleteRun send remotes).1, c.length ≤ 1000) ∧
    (deleteRun send remotes).2 = none := by
  refine ⟨deleteRun_nil send, ?_, ?_, ?_, ?_⟩
  · rw [deleteRun_success send hok]
  · rw [deleteRun_success send hok]
    simp only [List.length_map]
    exact chunks1000_length remotes
  · intro c hc
    rw [deleteRun_success send hok] at hc
    simp only [List.mem_map] at hc
    obtain ⟨c0, hc0, hmap⟩ := hc
    rw [← hmap, List.length_map]
    exact chunks1000_sizes remotes c0 hc0
  · rw [deleteRun_success send hok]

/-- C2 witness: 2001 keys produce exactly 3 requests under a succeeding
transport. -/
theorem C2_batch_delete_chunking_witness :
    (deleteRun (fun _ => none) (List.replicate 2001 "k")).1.length = 3 := by
  have h := (C2_batch_delete_chunking (fun _ => none) (List.replicate 2001 "k")
    (fun _ => rfl)).2.2.1
  rw [List.length_replicate] at h
  exact h.trans (by norm_num)

/-- C7: the chunks partition the input in order (their concatenation is the
input), the issued requests are always a prefix of the chunk list (no retry,
no skipping), and on failure the trace ends at the failing chunk, every
earlier chunk succeeded, and that chunk's error is returned. -/
theorem C7_chunk_failure_stops (send : List String → Option String)
    (remotes : List String) :
    (chunks1000 remotes).flatten = remotes ∧
    (∃ k, (deleteRun send remotes).1 =
      ((chunks1000 remotes).map (List.map trimLeadingSlash)).take k) ∧
    (∀ e, (deleteRun send remotes).2 = some e →
      ∃ pre cfail, (deleteRun send remotes).1 = pre ++ [cfail] ∧
        (∀ c ∈ pre, send c = none) ∧ send cfail = some e) :=
  ⟨chunks1000_flatten remotes, deleteRun_take send remotes,
   fun e he => deleteRun_failure send remotes e he⟩

/-- C7 witness: a failing single-chunk delete ends with the failing chunk and
returns its error. -/
theorem C7_chunk_failure_stops_witness :
    ∃ pre cfail, (deleteRun (fun _ => some "boom") ["x"]).1 = pre ++ [cfail] ∧
      (∀ c ∈ pre, (fun _ : List String => (some "boom" : Option String)) c = none) ∧
      (fun _ : List String => (some "boom" : Option String)) cfail = some "boom" := by
  apply (C7_chunk_failure_stops (fun _ => some "boom") ["x"]).2.2 "boom"
  rw [deleteRun_cons_some (fun _ => some "boom") ["x"] "boom" (by simp) rfl]

/-- C3: a listed key matched by at least one exception predicate always lands
in the undeleted result and never in the deleted result; when the underlying
batch delete fails, the deleted result is empty, every deletion candidate is
reclassified as undeleted, and the error is returned. -/
theorem C3_recursive_delete_exceptions (send : List String → Option String)
    (files : List String) (exceptions : List (String → Bool)) :
    (∀ k ∈ files, exceptions.any (fun ex => ex k) = true →
      k ∈ (deleteRecursive send files exceptions).2.1 ∧
      k ∉ (deleteRecursive send files exceptions).1) ∧
    (∀ e, (deleteRecursive send files exceptions).2.2 = some e →
      (deleteRecursive send files exceptions).1 = [] ∧
      (∀ k ∈ (partitionFiles exceptions files).1,
        k ∈ (deleteRecursive send files exceptions).2.1) ∧
      (deleteRecursive send files exceptions).2.1 =
        (partitionFiles exceptions files).2 ++ (partitionFiles exceptions files).1) := by
  cases hsend : (deleteRun send (partitionFiles exceptions files).1).2 with
  | none =>
      have hd : deleteRecursive send files exceptions =
          ((partitionFiles exceptions files).1,
            (partitionFiles exceptions files).2, none) := by
        simp only [deleteRecursive, hsend]
      rw [hd]
      refine ⟨fun k hk hm => partitionFiles_matched exceptions files k hk hm, ?_⟩
      intro e he
      cases he
  | some e0 =>
      have hd : deleteRecursive send files exceptions =
          ([], (partitionFiles exceptions files).2 ++ (partitionFiles exceptions files).1,
            some e0) := by
        simp only [deleteRecursive, hsend]
      rw [hd]
      refine ⟨?_, ?_⟩
      · intro k hk hm
        exact ⟨List.mem_append_left _ (partitionFiles_matched exceptions files k hk hm).1,
          fun hd2 => by cases hd2⟩
      · intro e _
        exact ⟨rfl, fun k hk => List.mem_append_right _ hk, rfl⟩

/-- C3 witness: with a failing delete, the key "a" matched by its exception is
in the undeleted result and not in the deleted result. -/
theorem C3_recursive_delete_exceptions_witness :
    "a" ∈ (deleteRecursive (fun _ => some "x") ["a", "b"] [fun s => s == "a"]).2.1 ∧
    "a" ∉ (deleteRecursive (fun _ => some "x") ["a", "b"] [fun s => s == "a"]).1 :=
  (C3_recursive_delete_exceptions (fun _ => some "x") ["a", "b"]
    [fun s => s == "a"]).1 "a" (by decide) (by decide)

/-- C8: the upload-token generator returns exactly the four fields key, policy,
OSSAccessKeyId and signature; the key field is the input stripped of a leading
slash; the policy conditions contain a content-length-range exactly when
maxSize is positive; and the validity duration defaults to ten minutes when
the supplied duration is zero or negative. -/
theorem C8_post_form (α : Type) (c : Client) (key : String) (maxSize duration : Int)
    (extras : List α) (now : Int) (jsonMarshal : PolicyDoc α → List Nat) :
    (postForm c key maxSize duration extras now jsonMarshal).map Prod.fst =
      ["key", "policy", "OSSAccessKeyId", "signature"] ∧
    (postForm c key maxSize duration extras now jsonMarshal).head? =
      some ("key", trimLeadingSlash key) ∧
    (postFormPolicy c key maxSize duration extras now).conditions =
      [Condition.kv "bucket" c.Bucket, Condition.kv "key" (trimLeadingSlash key)] ++
        (if maxSize > 0 then [Condition.contentLengthRange 0 maxSize] else []) ++
        extras.map Condition.extra ∧
    (postFormPolicy c key maxSize duration extras now).expiration =
      now + (if duration ≤ 0 then tenMinutes else duration) := by
  refine ⟨rfl, rfl, ?_, rfl⟩
  simp only [postFormPolicy]
  by_cases h : maxSize > 0
  · rw [if_pos h, if_pos h]
  · rw [if_neg h, if_neg h]
    simp

/-- C8 witness: the statement at concrete inputs. -/
theorem C8_post_form_witness :
    (postForm exampleClient "/a/b" 1048576 60 ([] : List Unit) 0
        (fun _ => [])).map Prod.fst =
      ["key", "policy", "OSSAccessKeyId", "signature"] ∧
    (postForm exampleClient "/a/b" 1048576 60 ([] : List Unit) 0
        (fun _ => [])).head? = some ("key", trimLeadingSlash "/a/b") ∧
    (postFormPolicy exampleClient "/a/b" 1048576 60 ([] : List Unit) 0).conditions =
      [Condition.kv "bucket" exampleClient.Bucket,
        Condition.kv "key" (trimLeadingSlash "/a/b")] ++
        (if (1048576 : Int) > 0 then [Condition.contentLengthRange 0 1048576] else []) ++
        ([] : List Unit).map Condition.extra ∧
    (postFormPolicy exampleClient "/a/b" 1048576 60 ([] : List Unit) 0).expiration =
      0 + (if (60 : Int) ≤ 0 then tenMinutes else 60) :=
  C8_post_form Unit exampleClient "/a/b" 1048576 60 [] 0 (fun _ => [])

end Ossslim
